import Mathlib

/-!
Shallow embedding of the Cornerstone LP-rebalancer ability
(`packages/cornerstone-lp-rebalancer-ability/src/lib/vincent-ability.ts`).

BigNumber arithmetic in the source is arbitrary-precision integer
arithmetic on non-negative quantities (prices, liquidity, basis points),
so it is embedded as `Nat`; `BigNumber.div` on non-negative operands is
floor division, i.e. `Nat.div`.  Addresses and other strings are embedded
as `List Char`.  Asynchronous RPC reads are embedded by passing the values
they would return as explicit inputs, and the state-mutating call
dispatcher is embedded as a pure function from calls to transaction
hashes.
-/

namespace LPRebalancer

/-- Constants from the source file. -/
def DEFAULT_DEVIATION_THRESHOLD_BPS : Nat := 150

def DEFAULT_REBALANCE_LIQUIDITY_BPS : Nat := 2500

def HISTORY_LOOKBACK_BLOCKS : Nat := 5000

def MAX_EVENT_BLOCK_SPAN : Nat := 10

def RPC_MAX_RETRIES : Nat := 3

def RPC_RETRY_BASE_DELAY_MS : Nat := 1000

/-- The fixed-point scale `WeiPerEther = 10^18`. -/
def WEI_PER_ETHER : Nat := 10 ^ 18

/-- The fixed-point constant `Q192 = 2^192`. -/
def Q192 : Nat := 2 ^ 192

/-- The constant `MAX_UINT128 = 2^128 - 1`. -/
def MAX_UINT128 : Nat := 2 ^ 128 - 1

/-- Embedding of `type Direction = 'increase' | 'decrease' | 'none'`. -/
inductive Direction where
  | increase
  | decrease
  | none
deriving DecidableEq, Repr

/-- Result record of `calculateDeviation`. -/
structure DeviationResult where
  deviation : Nat
  deviationBps : Nat
  direction : Direction
deriving DecidableEq, Repr

/-- Embedding of `calculateDeviation(currentPrice, targetPrice)`. -/
def calculateDeviation (currentPrice targetPrice : Nat) : DeviationResult :=
  if targetPrice = 0 then
    { deviation := 0, deviationBps := 0, direction := Direction.none }
  else if currentPrice = targetPrice then
    { deviation := 0, deviationBps := 0, direction := Direction.none }
  else
    let direction := if currentPrice > targetPrice then Direction.decrease else Direction.increase
    let deviation :=
      if currentPrice > targetPrice then currentPrice - targetPrice
      else targetPrice - currentPrice
    let deviationBps := deviation * 10000 / targetPrice
    { deviation := deviation, deviationBps := deviationBps, direction := direction }

/-- Embedding of `computePoolPrice(sqrtPriceX96)`:
`sqrtPriceX96^2 * WeiPerEther / 2^192`. -/
def computePoolPrice (sqrtPriceX96 : Nat) : Nat :=
  sqrtPriceX96 * sqrtPriceX96 * WEI_PER_ETHER / Q192

/-- C4: deviation bps formula and direction assignment, target nonzero. -/
theorem calculateDeviation_spec (c t : Nat) (ht : t ≠ 0) :
    (calculateDeviation c t).deviationBps = (max c t - min c t) * 10000 / t ∧
    (calculateDeviation c t).direction =
      (if t < c then Direction.decrease
       else if c < t then Direction.increase
       else Direction.none) := by
  unfold calculateDeviation
  rcases Nat.lt_trichotomy c t with h | h | h
  · have h1 : ¬c = t := Nat.ne_of_lt h
    have h2 : ¬c > t := Nat.not_lt.mpr (Nat.le_of_lt h)
    simp only [ht, if_false, h1, h2, if_true, if_neg, reduceIte]
    constructor
    · congr 2
      omega
    · simp [Nat.not_lt.mpr (Nat.le_of_lt h), h]
  · subst h
    simp [ht]
  · have h1 : ¬c = t := (Nat.ne_of_lt h).symm
    have h2 : c > t := h
    simp only [ht, if_false, h1, h2, reduceIte]
    constructor
    · congr 2
      omega
    · simp [h]

/-- C4 witness: concrete evaluation at current 1950, target 2000. -/
theorem calculateDeviation_spec_witness :
    (2000 : Nat) ≠ 0 ∧
    (calculateDeviation 1950 2000).deviationBps = (max 1950 2000 - min 1950 2000) * 10000 / 2000 ∧
    (calculateDeviation 1950 2000).direction =
      (if 2000 < 1950 then Direction.decrease
       else if 1950 < 2000 then Direction.increase
       else Direction.none) :=
  ⟨by decide, calculateDeviation_spec 1950 2000 (by decide)⟩

/-- C10: with a zero target price the deviation computation returns
deviation 0, deviationBps 0 and direction `none` (the division by the
target is only reached on the nonzero-target branch). -/
theorem calculateDeviation_total_zero_target (c : Nat) :
    calculateDeviation c 0 =
      { deviation := 0, deviationBps := 0, direction := Direction.none } := by
  unfold calculateDeviation
  simp

/-- C3 counterexample: at the positive prices current = 1, target = 2,
swapping the arguments changes `deviationBps` from 5000 to 10000, so the
bps value is not invariant under the swap. -/
theorem calculateDeviation_swap_counterexample :
    0 < (1 : Nat) ∧ 0 < (2 : Nat) ∧
    (calculateDeviation 1 2).deviationBps = 5000 ∧
    (calculateDeviation 2 1).deviationBps = 10000 ∧
    (calculateDeviation 1 2).deviationBps ≠ (calculateDeviation 2 1).deviationBps := by
  decide

/-- C3 amended: for positive prices, swapping the two arguments flips the
direction between increase and decrease, leaves the absolute deviation
(`deviation`, not `deviationBps`) unchanged, and direction is `none`
exactly when the two prices are equal.  `deviationBps` is NOT preserved by
the swap because it is normalised by the second argument. -/
theorem calculateDeviation_swap (c t : Nat) (hc : 0 < c) (ht : 0 < t) :
    ((calculateDeviation c t).direction = Direction.decrease ↔
      (calculateDeviation t c).direction = Direction.increase) ∧
    ((calculateDeviation c t).direction = Direction.increase ↔
      (calculateDeviation t c).direction = Direction.decrease) ∧
    (calculateDeviation c t).deviation = (calculateDeviation t c).deviation ∧
    ((calculateDeviation c t).direction = Direction.none ↔ c = t) := by
  unfold calculateDeviation
  rcases Nat.lt_trichotomy c t with h | h | h
  · have h1 : ¬c = t := Nat.ne_of_lt h
    have h2 : ¬t = c := fun hh => h1 hh.symm
    simp only [ht.ne', hc.ne', if_false, h1, h2]
    simp [Nat.not_lt.mpr (Nat.le_of_lt h), h, Nat.ne_of_lt h, (Nat.ne_of_lt h).symm]
  · subst h
    simp [hc.ne']
  · have h1 : ¬c = t := (Nat.ne_of_lt h).symm
    simp only [ht.ne', hc.ne', if_false, h1, Ne.symm h1]
    simp [Nat.not_lt.mpr (Nat.le_of_lt h), h, h1, Ne.symm h1]

/-- C3 amended witness: concrete evaluation at current 3, target 5. -/
theorem calculateDeviation_swap_witness :
    0 < (3 : Nat) ∧ 0 < (5 : Nat) ∧
    (((calculateDeviation 3 5).direction = Direction.decrease ↔
       (calculateDeviation 5 3).direction = Direction.increase) ∧
     ((calculateDeviation 3 5).direction = Direction.increase ↔
       (calculateDeviation 5 3).direction = Direction.decrease) ∧
     (calculateDeviation 3 5).deviation = (calculateDeviation 5 3).deviation ∧
     ((calculateDeviation 3 5).direction = Direction.none ↔ (3 : Nat) = 5)) :=
  ⟨by decide, by decide, calculateDeviation_swap 3 5 (by decide) (by decide)⟩

/-- An RPC failure as inspected by `isRetryableRpcError`: an object that
may carry a `code` string and / or a numeric `status`. -/
structure RpcError where
  code : Option String
  status : Option Nat
deriving DecidableEq, Repr

/-- The `maybeError.status && maybeError.status >= 500` test of
`isRetryableRpcError`; the JavaScript truthiness test is false for an
absent or zero status. -/
def rpcStatusRetryable : Option Nat → Bool
  | some s => decide (s ≠ 0) && decide (500 ≤ s)
  | Option.none => false

/-- The code test of `isRetryableRpcError`; `!maybeError.code` is true
for an absent or empty code string. -/
def rpcCodeRetryable : Option String → Bool
  | Option.none => false
  | some c => if c = "" then false else (c == "SERVER_ERROR") || (c == "NETWORK_ERROR")

/-- Embedding of `isRetryableRpcError`. -/
def isRetryableRpcError (e : RpcError) : Bool :=
  if rpcStatusRetryable e.status then true else rpcCodeRetryable e.code

/-- The status test succeeds exactly on a status ≥ 500. -/
theorem rpcStatusRetryable_iff (st : Option Nat) :
    rpcStatusRetryable st = true ↔ ∃ s, st = some s ∧ 500 ≤ s := by
  cases st with
  | none => simp [rpcStatusRetryable]
  | some s =>
    simp only [rpcStatusRetryable, Bool.and_eq_true, decide_eq_true_eq]
    constructor
    · exact fun h => ⟨s, rfl, h.2⟩
    · rintro ⟨s', hs', h5⟩
      obtain rfl : s' = s := by injection hs' with h; omega
      exact ⟨by omega, h5⟩

/-- The code test succeeds exactly on `SERVER_ERROR` and `NETWORK_ERROR`. -/
theorem rpcCodeRetryable_iff (c : Option String) :
    rpcCodeRetryable c = true ↔ (c = some "SERVER_ERROR" ∨ c = some "NETWORK_ERROR") := by
  cases c with
  | none => simp [rpcCodeRetryable]
  | some s =>
    by_cases hc : s = ""
    · subst hc
      simp [rpcCodeRetryable]
    · simp only [rpcCodeRetryable, hc, if_false, Bool.or_eq_true, beq_iff_eq,
        Option.some.injEq]

/-- Retryability characterisation of `isRetryableRpcError`. -/
theorem isRetryableRpcError_iff (err : RpcError) :
    isRetryableRpcError err = true ↔
      (err.code = some "SERVER_ERROR" ∨ err.code = some "NETWORK_ERROR" ∨
        ∃ s, err.status = some s ∧ 500 ≤ s) := by
  rcases err with ⟨code, status⟩
  simp only [isRetryableRpcError]
  cases hs : rpcStatusRetryable status with
  | true =>
    obtain ⟨s, hst, h5⟩ := (rpcStatusRetryable_iff status).mp hs
    subst hst
    simp only [if_true, reduceIte]
    constructor
    · exact fun _ => Or.inr (Or.inr ⟨s, rfl, h5⟩)
    · exact fun _ => trivial
  | false =>
    have hnost : ¬∃ s, status = some s ∧ 500 ≤ s := by
      intro h
      rw [(rpcStatusRetryable_iff status).mpr h] at hs
      exact absurd hs (by simp)
    simp only [Bool.false_eq_true, if_false]
    rw [rpcCodeRetryable_iff]
    simp [hnost]

/-- Observable outcome of `withRpcRetry`: the returned or thrown value,
the number of times the operation was invoked, and the list of backoff
delays (in ms) performed between attempts. -/
structure RetryResult (α : Type) where
  result : Except RpcError α
  attemptsMade : Nat
  delays : List Nat
deriving Repr

/-- Loop body of `withRpcRetry`.  The `while (attempt < RPC_MAX_RETRIES)`
loop is embedded with `fuel = RPC_MAX_RETRIES - attempt` as the structural
recursion measure; `op n` is the outcome of the n-th invocation of the
wrapped operation (attempts are numbered from 1, as in the source).  The
`fuel = 0` branch corresponds to the final unreachable `throw lastError`
after the loop (unreachable because `RPC_MAX_RETRIES > 0`). -/
def withRpcRetryGo {α : Type} (op : Nat → Except RpcError α) :
    Nat → Nat → List Nat → Option RpcError → RetryResult α
  | 0, attempt, delays, lastError =>
    { result := Except.error (lastError.getD { code := Option.none, status := Option.none }),
      attemptsMade := attempt, delays := delays }
  | fuel + 1, attempt, delays, _ =>
    match op (attempt + 1) with
    | Except.ok v => { result := Except.ok v, attemptsMade := attempt + 1, delays := delays }
    | Except.error e =>
      if isRetryableRpcError e = false ∨ attempt + 1 = RPC_MAX_RETRIES then
        { result := Except.error e, attemptsMade := attempt + 1, delays := delays }
      else
        withRpcRetryGo op fuel (attempt + 1)
          (delays ++ [RPC_RETRY_BASE_DELAY_MS * (attempt + 1)]) (some e)

/-- Embedding of `withRpcRetry(operation, context)`. -/
def withRpcRetry {α : Type} (op : Nat → Except RpcError α) : RetryResult α :=
  withRpcRetryGo op RPC_MAX_RETRIES 0 [] Option.none

/-- The loop invokes the operation at most `max RPC_MAX_RETRIES attempt`
times in total, counting from the carried attempt counter. -/
theorem withRpcRetryGo_attempts_le {α : Type} (op : Nat → Except RpcError α) :
    ∀ fuel attempt delays lastError, attempt + fuel ≤ RPC_MAX_RETRIES →
      (withRpcRetryGo op fuel attempt delays lastError).attemptsMade ≤ RPC_MAX_RETRIES := by
  intro fuel
  induction fuel with
  | zero =>
    intro attempt delays lastError h
    simp only [withRpcRetryGo]
    omega
  | succ n ih =>
    intro attempt delays lastError h
    simp only [withRpcRetryGo]
    cases ho : op (attempt + 1) with
    | ok v =>
      simp only
      omega
    | error e =>
      simp only
      by_cases hr : isRetryableRpcError e = false ∨ attempt + 1 = RPC_MAX_RETRIES
      · simp only [hr, if_true]
        omega
      · simp only [hr, if_false]
        exact ih (attempt + 1) _ _ (by omega)

/-- C5: the retry wrapper makes at most 3 attempts; two retryable
failures followed by a success return the success after exactly the two
delays 1000 ms and 2000 ms; a non-retryable failure propagates after one
attempt with no delays; and a failure is retryable iff it carries code
`SERVER_ERROR` or `NETWORK_ERROR` or a status ≥ 500. -/
theorem withRpcRetry_spec {α : Type} (op : Nat → Except RpcError α)
    (e1 e2 e : RpcError) (v : α)
    (h1 : isRetryableRpcError e1 = true) (h2 : isRetryableRpcError e2 = true)
    (hn : isRetryableRpcError e = false) :
    (withRpcRetry op).attemptsMade ≤ 3 ∧
    (op 1 = Except.error e1 → op 2 = Except.error e2 → op 3 = Except.ok v →
      withRpcRetry op =
        { result := Except.ok v, attemptsMade := 3, delays := [1000, 2000] }) ∧
    (op 1 = Except.error e → withRpcRetry op =
        { result := Except.error e, attemptsMade := 1, delays := [] }) ∧
    (∀ err : RpcError, isRetryableRpcError err = true ↔
      (err.code = some "SERVER_ERROR" ∨ err.code = some "NETWORK_ERROR" ∨
        ∃ s, err.status = some s ∧ 500 ≤ s)) := by
  refine ⟨?_, ?_, ?_, ?_⟩
  · exact withRpcRetryGo_attempts_le op RPC_MAX_RETRIES 0 [] Option.none (by decide)
  · intro o1 o2 o3
    simp [withRpcRetry, RPC_MAX_RETRIES, withRpcRetryGo, o1, o2, o3, h1, h2,
      RPC_RETRY_BASE_DELAY_MS]
  · intro o1
    simp [withRpcRetry, RPC_MAX_RETRIES, withRpcRetryGo, o1, hn]
  · exact isRetryableRpcError_iff

/-- Concrete operation for the C5 witness: retryable server errors on
attempts 1 and 2, success on attempt 3. -/
def retryWitnessOp : Nat → Except RpcError Nat := fun n =>
  if n < 3 then Except.error { code := some "SERVER_ERROR", status := Option.none }
  else Except.ok 42

/-- Concrete operation for the C5 witness: a non-retryable failure. -/
def failFastOp : Nat → Except RpcError Nat := fun _ =>
  Except.error { code := some "CALL_EXCEPTION", status := some 400 }

/-- C5 witness: concrete evaluation of the retry wrapper. -/
theorem withRpcRetry_spec_witness :
    isRetryableRpcError { code := some "SERVER_ERROR", status := Option.none } = true ∧
    isRetryableRpcError { code := some "CALL_EXCEPTION", status := some 400 } = false ∧
    withRpcRetry retryWitnessOp =
      { result := Except.ok 42, attemptsMade := 3, delays := [1000, 2000] } ∧
    withRpcRetry failFastOp =
      { result := Except.error { code := some "CALL_EXCEPTION", status := some 400 },
        attemptsMade := 1, delays := [] } := by
  refine ⟨by decide, by decide, ?_, ?_⟩
  · exact (withRpcRetry_spec retryWitnessOp
      { code := some "SERVER_ERROR", status := Option.none }
      { code := some "SERVER_ERROR", status := Option.none }
      { code := some "CALL_EXCEPTION", status := some 400 } 42
      (by decide) (by decide) (by decide)).2.1 rfl rfl rfl
  · exact (withRpcRetry_spec failFastOp
      { code := some "SERVER_ERROR", status := Option.none }
      { code := some "SERVER_ERROR", status := Option.none }
      { code := some "CALL_EXCEPTION", status := some 400 } 42
      (by decide) (by decide) (by decide)).2.2.1 rfl

/-- Addresses (and other JavaScript strings manipulated character-wise)
are embedded as lists of characters. -/
abbrev Addr := List Char

/-- Embedding of `s.toLowerCase()` on an address. -/
def toLowerL (a : Addr) : Addr := a.map Char.toLower

/-- Lexicographic comparison of two strings by character code, the order
used by JavaScript `Array.prototype.sort()` on strings (the addresses here
are ASCII, where code-unit order and code-point order agree). -/
def lexLe : List Char → List Char → Bool
  | [], _ => true
  | _ :: _, [] => false
  | a :: as, b :: bs =>
    if a.toNat < b.toNat then true
    else if b.toNat < a.toNat then false
    else lexLe as bs

/-- The match key of `attachPositionsToProjects`:
`[x.toLowerCase(), y.toLowerCase()].sort().join(':')`. -/
def pairKey (a b : Addr) : List Char :=
  if lexLe (toLowerL a) (toLowerL b) then toLowerL a ++ ':' :: toLowerL b
  else toLowerL b ++ ':' :: toLowerL a

/-- Two unordered pairs of addresses are equal up to order and letter
case.  This is the specification-level notion the match key realises. -/
def pairEqCI (a b c d : Addr) : Prop :=
  (toLowerL a = toLowerL c ∧ toLowerL b = toLowerL d) ∨
  (toLowerL a = toLowerL d ∧ toLowerL b = toLowerL c)

instance (a b c d : Addr) : Decidable (pairEqCI a b c d) :=
  inferInstanceAs (Decidable (_ ∨ _))

/-- An address is colon-free; Ethereum addresses (`0x` plus hex digits)
always are, and the joined key is only injective on colon-free parts. -/
def noColon (a : Addr) : Prop := ':' ∉ a

instance (a : Addr) : Decidable (noColon a) := inferInstanceAs (Decidable (_ ∉ _))

theorem char_toNat_inj {a b : Char} (h : a.toNat = b.toNat) : a = b := by
  have h1 := Char.ofNat_toNat a
  have h2 := Char.ofNat_toNat b
  rw [h] at h1
  rw [← h1, h2]

theorem lexLe_total (x y : List Char) : lexLe x y = true ∨ lexLe y x = true := by
  induction x generalizing y with
  | nil => exact Or.inl rfl
  | cons a as ih =>
    cases y with
    | nil => exact Or.inr rfl
    | cons b bs =>
      rcases Nat.lt_trichotomy a.toNat b.toNat with h | h | h
      · exact Or.inl (by simp [lexLe, h])
      · have hab : ¬a.toNat < b.toNat := by omega
        have hba : ¬b.toNat < a.toNat := by omega
        rcases ih bs with hh | hh
        · exact Or.inl (by simp [lexLe, hab, hba, hh])
        · exact Or.inr (by simp [lexLe, hab, hba, hh])
      · exact Or.inr (by simp [lexLe, h])

theorem lexLe_antisymm {x y : List Char} (hxy : lexLe x y = true)
    (hyx : lexLe y x = true) : x = y := by
  induction x generalizing y with
  | nil =>
    cases y with
    | nil => rfl
    | cons b bs => exact absurd hyx (by simp [lexLe])
  | cons a as ih =>
    cases y with
    | nil => exact absurd hxy (by simp [lexLe])
    | cons b bs =>
      rcases Nat.lt_trichotomy a.toNat b.toNat with h | h | h
      · have : ¬b.toNat < a.toNat := by omega
        simp [lexLe, h, this] at hyx
      · have hab : ¬a.toNat < b.toNat := by omega
        have hba : ¬b.toNat < a.toNat := by omega
        simp only [lexLe, hab, hba, if_false] at hxy hyx
        rw [char_toNat_inj h, ih hxy hyx]
  -- note: third trichotomy case mirrors the first
      · have : ¬a.toNat < b.toNat := by omega
        simp [lexLe, h, this] at hxy

/-- Lowering via `Char.toLower` never produces a colon: the lowered range is
`[97,122]`, and characters outside `[65,90]` are unchanged. -/
theorem toLower_eq_colon {c : Char} (h : c.toLower = ':') : c = ':' := by
  unfold Char.toLower at h
  simp only [] at h
  by_cases hc : c.toNat ≥ 65 ∧ c.toNat ≤ 90
  · rw [if_pos hc] at h
    exfalso
    have hv : (c.toNat + 32).isValidChar := by
      left
      omega
    have hn : (Char.ofNat (c.toNat + 32)).toNat = c.toNat + 32 := by
      rw [Char.ofNat, dif_pos hv]
      rfl
    have h58 : (':' : Char).toNat = 58 := by decide
    rw [h] at hn
    omega
  · rw [if_neg hc] at h
    exact h

theorem noColon_toLowerL {a : Addr} (h : noColon a) : noColon (toLowerL a) := by
  intro hmem
  obtain ⟨c, hc, hlow⟩ := List.mem_map.mp hmem
  exact h (by rw [← toLower_eq_colon hlow]; exact hc)

/-- Injectivity of the colon-joined key on colon-free halves. -/
theorem append_colon_inj :
    ∀ (x u y v : List Char), noColon x → noColon u →
      x ++ ':' :: y = u ++ ':' :: v → x = u ∧ y = v := by
  intro x
  induction x with
  | nil =>
    intro u y v _ hu h
    cases u with
    | nil => simpa using h
    | cons b bs =>
      simp only [List.nil_append, List.cons_append, List.cons.injEq] at h
      exact absurd (by rw [h.1]; exact List.mem_cons_self _ _) hu
  | cons a as ih =>
    intro u y v hx hu h
    cases u with
    | nil =>
      simp only [List.cons_append, List.nil_append, List.cons.injEq] at h
      exact absurd (by rw [← h.1]; exact List.mem_cons_self _ _) hx
    | cons b bs =>
      simp only [List.cons_append, List.cons.injEq] at h
      obtain ⟨hab, htail⟩ := h
      have := ih bs y v (fun hm => hx (List.mem_cons_of_mem _ hm))
        (fun hm => hu (List.mem_cons_of_mem _ hm)) htail
      exact ⟨by rw [hab, this.1], this.2⟩

/-- The match key does not depend on the order of the two addresses. -/
theorem pairKey_comm (a b : Addr) : pairKey a b = pairKey b a := by
  unfold pairKey
  cases hxy : lexLe (toLowerL a) (toLowerL b) with
  | true =>
    cases hyx : lexLe (toLowerL b) (toLowerL a) with
    | true => simp [lexLe_antisymm hxy hyx]
    | false => simp
  | false =>
    cases hyx : lexLe (toLowerL b) (toLowerL a) with
    | true => simp
    | false =>
      rcases lexLe_total (toLowerL a) (toLowerL b) with h | h
      · rw [hxy] at h
        exact absurd h (by simp)
      · rw [hyx] at h
        exact absurd h (by simp)

/-- The match key does not depend on the letter case of the addresses. -/
theorem pairKey_congr_case {a b a' b' : Addr} (ha : toLowerL a' = toLowerL a)
    (hb : toLowerL b' = toLowerL b) : pairKey a' b' = pairKey a b := by
  unfold pairKey
  rw [ha, hb]

/-- On colon-free addresses, key equality is exactly unordered
case-insensitive pair equality. -/
theorem pairKey_eq_iff {a b c d : Addr} (ha : noColon a) (hb : noColon b)
    (hc : noColon c) (hd : noColon d) :
    pairKey a b = pairKey c d ↔ pairEqCI a b c d := by
  constructor
  · intro h
    unfold pairKey at h
    have ha' := noColon_toLowerL ha
    have hb' := noColon_toLowerL hb
    have hc' := noColon_toLowerL hc
    have hd' := noColon_toLowerL hd
    by_cases h1 : lexLe (toLowerL a) (toLowerL b) = true
    · by_cases h2 : lexLe (toLowerL c) (toLowerL d) = true
      · rw [if_pos h1, if_pos h2] at h
        exact Or.inl (append_colon_inj _ _ _ _ ha' hc' h)
      · rw [if_pos h1, if_neg h2] at h
        have := append_colon_inj _ _ _ _ ha' hd' h
        exact Or.inr ⟨this.1, this.2.symm ▸ rfl⟩
    · by_cases h2 : lexLe (toLowerL c) (toLowerL d) = true
      · rw [if_neg h1, if_pos h2] at h
        have := append_colon_inj _ _ _ _ hb' hc' h
        exact Or.inr ⟨this.2, this.1⟩
      · rw [if_neg h1, if_neg h2] at h
        have := append_colon_inj _ _ _ _ hb' hd' h
        exact Or.inl ⟨this.2, this.1⟩
  · intro h
    rcases h with ⟨h1, h2⟩ | ⟨h1, h2⟩
    · exact pairKey_congr_case h1 h2
    · rw [pairKey_congr_case h1 h2]
      exact pairKey_comm d c

/-- Embedding of `PositionInfo` as read by `fetchOwnedPositions` (tokenId is
a decimal string in the source; its numeric value is embedded). -/
structure PositionInfo where
  tokenId : Nat
  token0 : Addr
  token1 : Addr
  fee : Nat
  liquidity : Nat
  tickLower : Int
  tickUpper : Int
deriving DecidableEq, Repr

/-- Embedding of `ProjectInfo` from project discovery. -/
structure ProjectInfo where
  projectAddress : Addr
  tokenAddress : Addr
  pyusdAddress : Addr
deriving DecidableEq, Repr

/-- Embedding of `ProjectMetrics` as produced by `fetchProjectMetrics` and
extended by `attachPositionsToProjects`. -/
structure ProjectMetrics where
  project : ProjectInfo
  poolAddress : Option Addr
  navPerShare : Nat
  targetPoolPrice : Nat
  currentPoolPrice : Nat
  poolLiquidity : Nat
  deviationBps : Nat
  direction : Direction
  positions : List PositionInfo
deriving DecidableEq, Repr

/-- The lookup key a project contributes to `projectTokenPairs`. -/
def projectPairKey (m : ProjectMetrics) : List Char :=
  pairKey m.project.tokenAddress m.project.pyusdAddress

/-- The lookup key computed for a discovered position. -/
def positionPairKey (p : PositionInfo) : List Char :=
  pairKey p.token0 p.token1

/-- Index of the metric the JavaScript `Map` holds for key `k`: the LAST
metric in the list whose key is `k`, because `Map.set` overwrites. -/
def keyIndexGo (k : List Char) : List ProjectMetrics → Nat → Option Nat
  | [], _ => Option.none
  | m :: rest, i =>
    match keyIndexGo k rest (i + 1) with
    | some j => some j
    | Option.none => if projectPairKey m = k then some i else Option.none

/-- See `keyIndexGo`. -/
def keyIndex (metrics : List ProjectMetrics) (k : List Char) : Option Nat :=
  keyIndexGo k metrics 0

/-- The metric at index `i` after the position loop: its original
positions followed, in discovery order, by every position whose key the
map resolves to index `i`. -/
def attachedMetric (metrics : List ProjectMetrics) (positions : List PositionInfo)
    (i : Nat) (m : ProjectMetrics) : ProjectMetrics :=
  { m with positions := m.positions ++
      positions.filter (fun p => decide (keyIndex metrics (positionPairKey p) = some i)) }

/-- Body of `attachPositionsToProjects`: each metric receives, appended in
order, exactly the positions whose key the map resolves to that metric. -/
def attachGo (metrics : List ProjectMetrics) (positions : List PositionInfo) :
    List ProjectMetrics → Nat → List ProjectMetrics
  | [], _ => []
  | m :: rest, i => attachedMetric metrics positions i m :: attachGo metrics positions rest (i + 1)

/-- Embedding of `attachPositionsToProjects(metrics, positions)` (the
source mutates `metrics` in place; the embedding returns the updated
list). -/
def attachPositionsToProjects (metrics : List ProjectMetrics)
    (positions : List PositionInfo) : List ProjectMetrics :=
  attachGo metrics positions metrics 0

/-- Embedding of `shouldRebalance(metric)`. -/
def shouldRebalance (m : ProjectMetrics) : Bool :=
  !(m.direction == Direction.none) && decide (DEFAULT_DEVIATION_THRESHOLD_BPS ≤ m.deviationBps)

/-- A state-mutating contract call issued through
`laUtils.transaction.handler.contractCall`, with its arguments. -/
inductive ChainCall where
  | accrueInterest (contractAddress : Addr)
  | decreaseLiquidity (positionManager : Addr) (tokenId : Nat) (liquidity : Nat)
      (amount0Min amount1Min : Nat) (deadline : Nat)
  | collect (positionManager : Addr) (tokenId : Nat) (recipient : Addr)
      (amount0Max amount1Max : Nat)
  | approve (token : Addr) (spender : Addr) (amount : Nat)
  | increaseLiquidity (positionManager : Addr) (tokenId : Nat)
      (amount0Desired amount1Desired : Nat) (amount0Min amount1Min : Nat) (deadline : Nat)
deriving DecidableEq, Repr

/-- Embedding of `ActionRecord` as pushed by `recordAction`. -/
structure ActionRecord where
  projectAddress : Addr
  tokenId : Option Nat
  name : String
  txHash : List Char
deriving DecidableEq, Repr

/-- One state-mutating call together with the ActionRecord the execute
loop records for it (every `contractCall` is followed by exactly one
`recordAction` in the source). -/
structure ExecStep where
  call : ChainCall
  record : ActionRecord
deriving DecidableEq, Repr

/-- Read-only chain state and collaborators the execute loop consults:
token balances and allowances of the delegated wallet against the
position manager, the black-box signing dispatcher (modelled as a pure
map from calls to transaction hashes), the current time, and the resolved
network configuration / wallet address. -/
structure ExecEnv where
  positionManager : Addr
  pkpAddress : Addr
  balanceOf : Addr → Nat
  allowance : Addr → Nat
  dispatch : ChainCall → List Char
  nowSec : Nat

/-- The calls and records the execute loop produces for one matched
position (the body of `for (const position of metric.positions)`). -/
def positionSteps (env : ExecEnv) (direction : Direction) (projectAddress : Addr)
    (p : PositionInfo) : List ExecStep :=
  if p.liquidity = 0 then []
  else
    let liquidityToUse := p.liquidity * DEFAULT_REBALANCE_LIQUIDITY_BPS / 10000
    if liquidityToUse = 0 ∧ direction = Direction.decrease then []
    else if direction = Direction.decrease then
      let decCall := ChainCall.decreaseLiquidity env.positionManager p.tokenId
        (if liquidityToUse = 0 then p.liquidity else liquidityToUse) 0 0 (env.nowSec + 900)
      let colCall := ChainCall.collect env.positionManager p.tokenId env.pkpAddress
        MAX_UINT128 MAX_UINT128
      [{ call := decCall,
         record := { projectAddress := projectAddress, tokenId := some p.tokenId,
                     name := "decreaseLiquidity", txHash := env.dispatch decCall } },
       { call := colCall,
         record := { projectAddress := projectAddress, tokenId := some p.tokenId,
                     name := "collect", txHash := env.dispatch colCall } }]
    else if direction = Direction.increase then
      let balance0 := env.balanceOf p.token0
      let balance1 := env.balanceOf p.token1
      let allowance0 := env.allowance p.token0
      let allowance1 := env.allowance p.token1
      if balance0 = 0 ∧ balance1 = 0 then []
      else
        (if 0 < balance0 ∧ allowance0 < balance0 then
          let c := ChainCall.approve p.token0 env.positionManager balance0
          [{ call := c,
             record := { projectAddress := projectAddress, tokenId := some p.tokenId,
                         name := "approveToken0", txHash := env.dispatch c } }]
         else []) ++
        (if 0 < balance1 ∧ allowance1 < balance1 then
          let c := ChainCall.approve p.token1 env.positionManager balance1
          [{ call := c,
             record := { projectAddress := projectAddress, tokenId := some p.tokenId,
                         name := "approveToken1", txHash := env.dispatch c } }]
         else []) ++
        (let c := ChainCall.increaseLiquidity env.positionManager p.tokenId
           balance0 balance1 0 0 (env.nowSec + 900)
         [{ call := c,
            record := { projectAddress := projectAddress, tokenId := some p.tokenId,
                        name := "increaseLiquidity", txHash := env.dispatch c } }])
    else []

/-- The steps the execute loop produces for one project: nothing when
ineligible, otherwise the accrue-interest step followed by the steps of
each matched position in order. -/
def projectSteps (env : ExecEnv) (m : ProjectMetrics) : List ExecStep :=
  if shouldRebalance m then
    let acCall := ChainCall.accrueInterest m.project.projectAddress
    { call := acCall,
      record := { projectAddress := m.project.projectAddress, tokenId := Option.none,
                  name := "accrueInterest", txHash := env.dispatch acCall } } ::
      m.positions.flatMap (positionSteps env m.direction m.project.projectAddress)
  else []

/-- The full ordered step list of one execute run over all projects. -/
def executeActions (env : ExecEnv) (metrics : List ProjectMetrics) : List ExecStep :=
  metrics.flatMap (projectSteps env)

/-- If the map resolves key `k` to an index, a metric with key `k` sits at
that index. -/
theorem keyIndexGo_some {k : List Char} :
    ∀ (l : List ProjectMetrics) (i j : Nat), keyIndexGo k l i = some j →
      i ≤ j ∧ ∃ m, l.get? (j - i) = some m ∧ projectPairKey m = k := by
  intro l
  induction l with
  | nil => intro i j h; exact absurd h (by simp [keyIndexGo])
  | cons m rest ih =>
    intro i j h
    rw [keyIndexGo] at h
    cases hr : keyIndexGo k rest (i + 1) with
    | some j' =>
      rw [hr] at h
      have hj : j' = j := Option.some.inj h
      obtain ⟨hij, m', hm', hk⟩ := ih (i + 1) j' hr
      rw [← hj]
      refine ⟨by omega, m', ?_, hk⟩
      have h2 : j' - i = (j' - (i + 1)) + 1 := by omega
      rw [h2]
      simpa using hm'
    | none =>
      rw [hr] at h
      by_cases hk : projectPairKey m = k
      · rw [if_pos hk] at h
        have hij : i = j := Option.some.inj h
        rw [← hij]
        exact ⟨Nat.le_refl i, m, by simp, hk⟩
      · rw [if_neg hk] at h
        exact absurd h (by simp)

/-- If the metrics have pairwise distinct keys, the map resolves a key to
exactly the index of the metric carrying it. -/
theorem keyIndexGo_complete {k : List Char} :
    ∀ (l : List ProjectMetrics) (i d : Nat) (m : ProjectMetrics),
      List.Pairwise (fun m1 m2 => projectPairKey m1 ≠ projectPairKey m2) l →
      l.get? d = some m → projectPairKey m = k →
      keyIndexGo k l i = some (i + d) := by
  intro l
  induction l with
  | nil => intro i d m _ h; exact absurd h (by simp)
  | cons m0 rest ih =>
    intro i d m hpw hget hk
    rw [keyIndexGo]
    cases d with
    | zero =>
      have hm0 : m0 = m := by simpa using hget
      cases hr : keyIndexGo k rest (i + 1) with
      | some j' =>
        obtain ⟨_, m', hm', hk'⟩ := keyIndexGo_some rest (i + 1) j' hr
        have hmem : m' ∈ rest := List.get?_mem hm'
        have hkeys : projectPairKey m0 = projectPairKey m' := by
          rw [hm0, hk, hk']
        exact absurd hkeys ((List.pairwise_cons.mp hpw).1 m' hmem)
      | none => simp [hm0, hk]
    | succ d' =>
      have hget' : rest.get? d' = some m := by simpa using hget
      rw [ih (i + 1) d' m (List.pairwise_cons.mp hpw).2 hget' hk]
      have : i + 1 + d' = i + (d' + 1) := by omega
      rw [this]

/-- The positions attached to the metric at index `j`. -/
theorem attachGo_get? (metrics : List ProjectMetrics) (positions : List PositionInfo) :
    ∀ (l : List ProjectMetrics) (i j : Nat),
      (attachGo metrics positions l i).get? j =
        (l.get? j).map (attachedMetric metrics positions (i + j)) := by
  intro l
  induction l with
  | nil => intro i j; simp [attachGo]
  | cons m rest ih =>
    intro i j
    cases j with
    | zero => simp [attachGo]
    | succ j' =>
      rw [attachGo]
      simp only [List.get?_cons_succ]
      rw [ih (i + 1) j']
      have : i + 1 + j' = i + (j' + 1) := by omega
      rw [this]

/-- Every step produced for a position carries that position's tokenId. -/
theorem positionSteps_tokenId (env : ExecEnv) (direction : Direction)
    (projectAddress : Addr) (p : PositionInfo) :
    ∀ s ∈ positionSteps env direction projectAddress p,
      s.record.tokenId = some p.tokenId := by
  intro s hs
  simp only [positionSteps] at hs
  by_cases h0 : p.liquidity = 0
  · rw [if_pos h0] at hs
    simp at hs
  · rw [if_neg h0] at hs
    by_cases h1 : p.liquidity * DEFAULT_REBALANCE_LIQUIDITY_BPS / 10000 = 0 ∧
        direction = Direction.decrease
    · rw [if_pos h1] at hs
      simp at hs
    · rw [if_neg h1] at hs
      by_cases h2 : direction = Direction.decrease
      · rw [if_pos h2] at hs
        rcases List.mem_cons.mp hs with h | h
        · rw [h]
        · rw [List.mem_singleton.mp h]
      · rw [if_neg h2] at hs
        by_cases h3 : direction = Direction.increase
        · rw [if_pos h3] at hs
          by_cases h4 : env.balanceOf p.token0 = 0 ∧ env.balanceOf p.token1 = 0
          · rw [if_pos h4] at hs
            simp at hs
          · rw [if_neg h4] at hs
            rcases List.mem_append.mp hs with h | h
            · rcases List.mem_append.mp h with h | h
              · by_cases h5 : 0 < env.balanceOf p.token0 ∧
                    env.allowance p.token0 < env.balanceOf p.token0
                · rw [if_pos h5] at h
                  rw [List.mem_singleton.mp h]
                · rw [if_neg h5] at h
                  simp at h
              · by_cases h6 : 0 < env.balanceOf p.token1 ∧
                    env.allowance p.token1 < env.balanceOf p.token1
                · rw [if_pos h6] at h
                  rw [List.mem_singleton.mp h]
                · rw [if_neg h6] at h
                  simp at h
            · rw [List.mem_singleton.mp h]
        · rw [if_neg h3] at hs
          simp at hs

/-- Every step of a run is either an accrue-interest step (no tokenId) or
comes from a position attached to some evaluated metric. -/
theorem executeActions_sources (env : ExecEnv) (metrics : List ProjectMetrics) :
    ∀ s ∈ executeActions env metrics, s.record.tokenId = Option.none ∨
      ∃ m ∈ metrics, ∃ q ∈ m.positions, s.record.tokenId = some q.tokenId := by
  intro s hs
  obtain ⟨m, hm, hsm⟩ := List.mem_flatMap.mp hs
  unfold projectSteps at hsm
  split at hsm
  · rcases List.mem_cons.mp hsm with h | h
    · rw [h]
      exact Or.inl rfl
    · obtain ⟨q, hq, hsq⟩ := List.mem_flatMap.mp h
      exact Or.inr ⟨m, hm, q, hq, positionSteps_tokenId env _ _ q s hsq⟩
  · simp at hsm

/-- A minimal environment for concrete evaluations. -/
def envW : ExecEnv :=
  { positionManager := ['m'], pkpAddress := ['k'],
    balanceOf := fun _ => 0, allowance := fun _ => 0,
    dispatch := fun _ => ['t'], nowSec := 0 }

/-- C9: a project is rebalanced iff its direction is not `none` and its
deviation is at least the 150 bps default threshold; an ineligible
project contributes no steps (no calls, no ActionRecords), and in
particular a 50 bps deviation yields zero actions. -/
theorem shouldRebalance_spec (env : ExecEnv) (m : ProjectMetrics) :
    (shouldRebalance m = true ↔
      (m.direction ≠ Direction.none ∧ DEFAULT_DEVIATION_THRESHOLD_BPS ≤ m.deviationBps)) ∧
    (shouldRebalance m = false → projectSteps env m = []) ∧
    (m.deviationBps = 50 → projectSteps env m = []) := by
  have hiff : shouldRebalance m = true ↔
      (m.direction ≠ Direction.none ∧ DEFAULT_DEVIATION_THRESHOLD_BPS ≤ m.deviationBps) := by
    unfold shouldRebalance
    rw [Bool.and_eq_true, Bool.not_eq_true', beq_eq_false_iff_ne, decide_eq_true_eq]
  refine ⟨hiff, ?_, ?_⟩
  · intro h
    unfold projectSteps
    rw [h]
    simp
  · intro h50
    have hfalse : shouldRebalance m = false := by
      cases hb : shouldRebalance m with
      | false => rfl
      | true =>
        have := (hiff.mp hb).2
        rw [h50] at this
        exact absurd this (by decide)
    unfold projectSteps
    rw [hfalse]
    simp

/-- A metric 50 bps below target: under the 150 bps threshold. -/
def metricLowDeviation : ProjectMetrics :=
  { project := { projectAddress := ['p'], tokenAddress := ['a'], pyusdAddress := ['b'] },
    poolAddress := Option.none, navPerShare := 1, targetPoolPrice := 1000,
    currentPoolPrice := 995, poolLiquidity := 5, deviationBps := 50,
    direction := Direction.increase, positions := [] }

/-- C9 witness: the 50 bps metric produces no steps. -/
theorem shouldRebalance_spec_witness :
    metricLowDeviation.deviationBps = 50 ∧ projectSteps envW metricLowDeviation = [] :=
  ⟨rfl, (shouldRebalance_spec envW metricLowDeviation).2.2 rfl⟩

/-- A decrease-direction position whose 25% share floors to zero. -/
def decreasePositionSmall : PositionInfo :=
  { tokenId := 7, token0 := ['a'], token1 := ['b'], fee := 3000,
    liquidity := 3, tickLower := 0, tickUpper := 0 }

/-- A decrease-direction position whose 25% share is 1. -/
def decreasePositionLarger : PositionInfo :=
  { tokenId := 8, token0 := ['a'], token1 := ['b'], fee := 3000,
    liquidity := 4, tickLower := 0, tickUpper := 0 }

/-- C1 (code evaluation at the failing input): a position with nonzero
liquidity 3 has `liquidity × 2500 / 10000 = 0`, and on the decrease path
the loop `continue`s: no decrease-liquidity call is issued at all, instead
of one removing the full liquidity — the full-liquidity fallback inside the
decrease call's arguments is unreachable.  For liquidity 4 the removed
liquidity is the floor `1`, as the claim states. -/
theorem decreasePath_zero_floor_skips :
    0 < decreasePositionSmall.liquidity ∧
    decreasePositionSmall.liquidity * DEFAULT_REBALANCE_LIQUIDITY_BPS / 10000 = 0 ∧
    positionSteps envW Direction.decrease ['p'] decreasePositionSmall = [] ∧
    decreasePositionLarger.liquidity * DEFAULT_REBALANCE_LIQUIDITY_BPS / 10000 = 1 ∧
    (positionSteps envW Direction.decrease ['p'] decreasePositionLarger).map
        (fun s => s.call) =
      [ChainCall.decreaseLiquidity ['m'] 8 1 0 0 900,
       ChainCall.collect ['m'] 8 ['k'] MAX_UINT128 MAX_UINT128] := by
  decide

/-- C8: per eligible project the first step is the accrue-interest call
and every later step is a position action; on the decrease path the steps
for a position are exactly decrease-liquidity immediately followed by
collect; on the increase path the step names are approvals followed by the
increase-liquidity call. -/
theorem executeOrdering_spec (env : ExecEnv) (m : ProjectMetrics)
    (h : shouldRebalance m = true) :
    (∃ rest, projectSteps env m =
        { call := ChainCall.accrueInterest m.project.projectAddress,
          record := { projectAddress := m.project.projectAddress, tokenId := Option.none,
                      name := "accrueInterest",
                      txHash := env.dispatch
                        (ChainCall.accrueInterest m.project.projectAddress) } } :: rest ∧
      ∀ s ∈ rest, s.record.tokenId ≠ Option.none) ∧
    (m.direction = Direction.decrease → ∀ p ∈ m.positions,
      positionSteps env m.direction m.project.projectAddress p = [] ∨
      (positionSteps env m.direction m.project.projectAddress p).map
          (fun s => (s.record.name, s.record.tokenId)) =
        [("decreaseLiquidity", some p.tokenId), ("collect", some p.tokenId)]) ∧
    (m.direction = Direction.increase → ∀ p ∈ m.positions,
      positionSteps env m.direction m.project.projectAddress p = [] ∨
      ∃ apprs, (positionSteps env m.direction m.project.projectAddress p).map
          (fun s => s.record.name) = apprs ++ ["increaseLiquidity"] ∧
        ∀ a ∈ apprs, a = "approveToken0" ∨ a = "approveToken1") := by
  refine ⟨?_, ?_, ?_⟩
  · refine ⟨m.positions.flatMap (positionSteps env m.direction m.project.projectAddress),
      ?_, ?_⟩
    · unfold projectSteps
      rw [if_pos h]
    · intro s hs
      obtain ⟨q, hq, hsq⟩ := List.mem_flatMap.mp hs
      rw [positionSteps_tokenId env m.direction m.project.projectAddress q s hsq]
      simp
  · intro hdir p hp
    rw [hdir]
    by_cases h0 : p.liquidity = 0
    · exact Or.inl (by simp [positionSteps, h0])
    · by_cases hf : p.liquidity * DEFAULT_REBALANCE_LIQUIDITY_BPS / 10000 = 0
      · exact Or.inl (by simp [positionSteps, h0, hf])
      · exact Or.inr (by simp [positionSteps, h0, hf])
  · intro hdir p hp
    rw [hdir]
    by_cases h0 : p.liquidity = 0
    · exact Or.inl (by simp [positionSteps, h0])
    · by_cases h4 : env.balanceOf p.token0 = 0 ∧ env.balanceOf p.token1 = 0
      · refine Or.inl ?_
        simp [positionSteps, h0, h4]
      · refine Or.inr ?_
        refine ⟨(if 0 < env.balanceOf p.token0 ∧
              env.allowance p.token0 < env.balanceOf p.token0 then ["approveToken0"]
            else []) ++
          (if 0 < env.balanceOf p.token1 ∧
              env.allowance p.token1 < env.balanceOf p.token1 then ["approveToken1"]
            else []), ?_, ?_⟩
        · simp only [positionSteps, h0, if_false]
          simp only [if_neg h4]
          split_ifs <;> simp_all
        · intro a ha
          rcases List.mem_append.mp ha with hh | hh
          · split_ifs at hh
            · exact Or.inl (List.mem_singleton.mp hh)
            · simp at hh
          · split_ifs at hh
            · exact Or.inr (List.mem_singleton.mp hh)
            · simp at hh

/-- A 200 bps decrease metric owning one sizeable position, for the C8
witness. -/
def metricDecrease : ProjectMetrics :=
  { project := { projectAddress := ['p'], tokenAddress := ['a'], pyusdAddress := ['b'] },
    poolAddress := some ['q'], navPerShare := 1, targetPoolPrice := 1000,
    currentPoolPrice := 1020, poolLiquidity := 5, deviationBps := 200,
    direction := Direction.decrease,
    positions := [{ tokenId := 5, token0 := ['a'], token1 := ['b'], fee := 3000,
                    liquidity := 100, tickLower := 0, tickUpper := 0 }] }

/-- C8 witness: concrete run over the decrease metric. -/
theorem executeOrdering_spec_witness :
    shouldRebalance metricDecrease = true ∧
    ((∃ rest, projectSteps envW metricDecrease =
        { call := ChainCall.accrueInterest metricDecrease.project.projectAddress,
          record := { projectAddress := metricDecrease.project.projectAddress,
                      tokenId := Option.none, name := "accrueInterest",
                      txHash := envW.dispatch
                        (ChainCall.accrueInterest
                          metricDecrease.project.projectAddress) } } :: rest ∧
      ∀ s ∈ rest, s.record.tokenId ≠ Option.none) ∧
    (metricDecrease.direction = Direction.decrease → ∀ p ∈ metricDecrease.positions,
      positionSteps envW metricDecrease.direction
          metricDecrease.project.projectAddress p = [] ∨
      (positionSteps envW metricDecrease.direction
          metricDecrease.project.projectAddress p).map
          (fun s => (s.record.name, s.record.tokenId)) =
        [("decreaseLiquidity", some p.tokenId), ("collect", some p.tokenId)]) ∧
    (metricDecrease.direction = Direction.increase → ∀ p ∈ metricDecrease.positions,
      positionSteps envW metricDecrease.direction
          metricDecrease.project.projectAddress p = [] ∨
      ∃ apprs, (positionSteps envW metricDecrease.direction
          metricDecrease.project.projectAddress p).map
          (fun s => s.record.name) = apprs ++ ["increaseLiquidity"] ∧
        ∀ a ∈ apprs, a = "approveToken0" ∨ a = "approveToken1")) :=
  ⟨by decide, executeOrdering_spec envW metricDecrease (by decide)⟩

/-- C7: the match key is invariant under the order and the letter case of
the two token addresses; on colon-free addresses key equality is exactly
unordered case-insensitive pair equality; with pairwise-distinct project
keys a position is appended to the metric at index `i` iff its key equals
that project's key; and a position matching no tracked project is appended
to no project's metrics and no execute step carries its tokenId. -/
theorem matching_spec :
    (∀ a b : Addr, pairKey a b = pairKey b a) ∧
    (∀ a b a' b' : Addr, toLowerL a' = toLowerL a → toLowerL b' = toLowerL b →
      pairKey a' b' = pairKey a b) ∧
    (∀ a b c d : Addr, noColon a → noColon b → noColon c → noColon d →
      (pairKey a b = pairKey c d ↔ pairEqCI a b c d)) ∧
    (∀ (metrics : List ProjectMetrics) (positions : List PositionInfo)
        (i : Nat) (m m' : ProjectMetrics) (p : PositionInfo),
      List.Pairwise (fun m1 m2 => projectPairKey m1 ≠ projectPairKey m2) metrics →
      metrics.get? i = some m →
      (attachPositionsToProjects metrics positions).get? i = some m' →
      (p ∈ m'.positions ↔
        p ∈ m.positions ∨ (p ∈ positions ∧ projectPairKey m = positionPairKey p))) ∧
    (∀ (env : ExecEnv) (metrics : List ProjectMetrics)
        (positions : List PositionInfo) (p : PositionInfo),
      (∀ m ∈ metrics, projectPairKey m ≠ positionPairKey p) →
      (∀ m ∈ metrics, ∀ q ∈ m.positions, q.tokenId ≠ p.tokenId) →
      (∀ q ∈ positions, q.tokenId = p.tokenId → q = p) →
      ∀ s ∈ executeActions env (attachPositionsToProjects metrics positions),
        s.record.tokenId ≠ some p.tokenId) := by
  refine ⟨pairKey_comm, fun a b a' b' ha hb => pairKey_congr_case ha hb,
    fun a b c d ha hb hc hd => pairKey_eq_iff ha hb hc hd, ?_, ?_⟩
  · intro metrics positions i m m' p hpw hget hget'
    rw [attachPositionsToProjects, attachGo_get? metrics positions metrics 0 i, hget] at hget'
    have hm' : m' = attachedMetric metrics positions (0 + i) m := by
      simpa using hget'.symm
    rw [hm']
    simp only [attachedMetric, List.mem_append, List.mem_filter, decide_eq_true_eq,
      Nat.zero_add]
    constructor
    · rintro (h | ⟨hpos, hkey⟩)
      · exact Or.inl h
      · refine Or.inr ⟨hpos, ?_⟩
        obtain ⟨_, m'', hm'', hk''⟩ := keyIndexGo_some metrics 0 i hkey
        rw [Nat.sub_zero] at hm''
        rw [hget] at hm''
        rw [Option.some.inj hm'']
        exact hk''
    · rintro (h | ⟨hpos, hkey⟩)
      · exact Or.inl h
      · refine Or.inr ⟨hpos, ?_⟩
        have := keyIndexGo_complete metrics 0 i m hpw hget hkey
        rw [keyIndex, this, Nat.zero_add]
  · intro env metrics positions p hnok hinit hids s hs heq
    rcases executeActions_sources env _ s hs with hnone | ⟨m', hm', q, hq, htid⟩
    · rw [heq] at hnone
      exact absurd hnone (by simp)
    · rw [heq] at htid
      have hqp : q.tokenId = p.tokenId := (Option.some.inj htid).symm
      obtain ⟨i, hgi⟩ := List.mem_iff_get?.mp hm'
      cases hget : metrics.get? i with
      | none =>
        rw [attachPositionsToProjects, attachGo_get? metrics positions metrics 0 i,
          hget] at hgi
        exact absurd hgi (by simp)
      | some m0 =>
        rw [attachPositionsToProjects, attachGo_get? metrics positions metrics 0 i,
          hget] at hgi
        have hm0 : m' = attachedMetric metrics positions (0 + i) m0 := by
          simpa using hgi.symm
        rw [hm0] at hq
        simp only [attachedMetric, List.mem_append, List.mem_filter, decide_eq_true_eq,
          Nat.zero_add] at hq
        have hm0mem : m0 ∈ metrics := List.get?_mem hget
        rcases hq with h | ⟨hpos, hkey⟩
        · exact hinit m0 hm0mem q h hqp
        · obtain rfl : q = p := hids q hpos hqp
          obtain ⟨_, m'', hm'', hk''⟩ := keyIndexGo_some metrics 0 i hkey
          rw [Nat.sub_zero] at hm''
          exact hnok m'' (List.get?_mem hm'') hk''

/-- A tracked project over the token pair a/b, for the C7 witness. -/
def metricTracked : ProjectMetrics :=
  { project := { projectAddress := ['p', '1'], tokenAddress := ['a'], pyusdAddress := ['b'] },
    poolAddress := some ['q'], navPerShare := 1, targetPoolPrice := 1000,
    currentPoolPrice := 1200, poolLiquidity := 5, deviationBps := 2000,
    direction := Direction.decrease, positions := [] }

/-- A position over the unrelated token pair c/d, for the C7 witness. -/
def strayPosition : PositionInfo :=
  { tokenId := 9, token0 := ['c'], token1 := ['d'], fee := 3000,
    liquidity := 10, tickLower := 0, tickUpper := 0 }

/-- C7 witness: the stray position matches no tracked project and no step
of the concrete run carries its tokenId. -/
theorem matching_spec_witness :
    (∀ m ∈ [metricTracked], projectPairKey m ≠ positionPairKey strayPosition) ∧
    (∀ m ∈ [metricTracked], ∀ q ∈ m.positions, q.tokenId ≠ strayPosition.tokenId) ∧
    (∀ q ∈ [strayPosition], q.tokenId = strayPosition.tokenId → q = strayPosition) ∧
    (∀ s ∈ executeActions envW (attachPositionsToProjects [metricTracked] [strayPosition]),
      s.record.tokenId ≠ some strayPosition.tokenId) :=
  ⟨by decide, by decide, by decide,
    matching_spec.2.2.2.2 envW [metricTracked] [strayPosition] strayPosition
      (by decide) (by decide) (by decide)⟩

/-- Tests whether `pat` leads the character list. -/
def charsLead : List Char → List Char → Bool
  | [], _ => true
  | _ :: _, [] => false
  | p :: ps, c :: cs => (p == c) && charsLead ps cs

/-- Tests whether `pat` occurs somewhere in the character list: JavaScript
`String.prototype.includes`. -/
def charsContain (pat : List Char) : List Char → Bool
  | [] => charsLead pat []
  | c :: cs => charsLead pat (c :: cs) || charsContain pat cs

/-- Embedding of `message.includes(pattern)` on Lean strings. -/
def stringIncludes (s pat : String) : Bool := charsContain pat.data s.data

/-- The message of the error thrown by `fetchProjectMetrics` on a zero
target pool price. -/
def NAV_ZERO_MESSAGE : String := "Target pool price returned 0 from CornerstoneProject"

/-- The failure category the precheck catch block assigns to an error
message (`KNOWN_ERRORS.NAV_TARGET_ZERO` for messages mentioning
`Target pool price`, else `KNOWN_ERRORS.PROVIDER_ERROR`). -/
def precheckFailReason (message : String) : String :=
  if stringIncludes message "Target pool price" then "NAV_TARGET_ZERO"
  else "PROVIDER_ERROR"

/-- The failure category the execute catch block assigns to an error
message (`INVALID_REGISTRY_ADDRESS` for messages mentioning
`registry address`, else `PROVIDER_ERROR`; there is no NAV case). -/
def executeFailReason (message : String) : String :=
  if stringIncludes message "registry address" then "INVALID_REGISTRY_ADDRESS"
  else "PROVIDER_ERROR"

/-- The values the parallel reads of `fetchProjectMetrics` return. -/
structure MetricsReads where
  navPerShare : Nat
  targetPoolPrice : Nat
  poolAddress : Addr
  sqrtPriceX96 : Nat
  liquidity : Nat
deriving DecidableEq, Repr

/-- The zero address `ethers.constants.AddressZero`. -/
def zeroAddress : Addr := "0x0000000000000000000000000000000000000000".data

/-- Embedding of `fetchProjectMetrics`: throws on a zero target pool
price, otherwise reads the pool's price and liquidity when a pool exists
and computes the deviation. -/
def fetchProjectMetrics (project : ProjectInfo) (r : MetricsReads) :
    Except String ProjectMetrics :=
  if r.targetPoolPrice = 0 then Except.error NAV_ZERO_MESSAGE
  else
    let hasPool := r.poolAddress ≠ [] ∧ r.poolAddress ≠ zeroAddress
    let currentPoolPrice := if hasPool then computePoolPrice r.sqrtPriceX96 else 0
    let poolLiquidity := if hasPool then r.liquidity else 0
    let dev := calculateDeviation currentPoolPrice r.targetPoolPrice
    Except.ok
      { project := project
        poolAddress := if hasPool then some r.poolAddress else Option.none
        navPerShare := r.navPerShare
        targetPoolPrice := r.targetPoolPrice
        currentPoolPrice := currentPoolPrice
        poolLiquidity := poolLiquidity
        deviationBps := dev.deviationBps
        direction := dev.direction
        positions := [] }

/-- A set of metric reads with a zero target pool price. -/
def readsZeroTarget : MetricsReads :=
  { navPerShare := 5, targetPoolPrice := 0, poolAddress := ['q'],
    sqrtPriceX96 := 10, liquidity := 7 }

/-- The project used in the C2 evaluations. -/
def projInfoW : ProjectInfo :=
  { projectAddress := ['p'], tokenAddress := ['a'], pyusdAddress := ['b'] }

/-- C2 counterexample: on the concrete zero-target input the metrics read
fails hard with the NAV-zero message, but the execute catch block
categorises that very message as `PROVIDER_ERROR`, not `NAV_TARGET_ZERO`
— only the precheck catch block uses the NAV category. -/
theorem navZero_execute_reason_counterexample :
    fetchProjectMetrics projInfoW readsZeroTarget = Except.error NAV_ZERO_MESSAGE ∧
    executeFailReason NAV_ZERO_MESSAGE = "PROVIDER_ERROR" ∧
    "PROVIDER_ERROR" ≠ "NAV_TARGET_ZERO" :=
  ⟨rfl, by decide, by decide⟩

/-- C2 amended: a zero target pool price makes `fetchProjectMetrics`
throw, so neither precheck nor execute can return a zero-deviation
result; the precheck catch categorises the failure as `NAV_TARGET_ZERO`,
while the execute catch categorises the same failure as `PROVIDER_ERROR`
(its message does not mention `registry address`). -/
theorem navZero_hard_failure (project : ProjectInfo) (r : MetricsReads)
    (h : r.targetPoolPrice = 0) :
    fetchProjectMetrics project r = Except.error NAV_ZERO_MESSAGE ∧
    precheckFailReason NAV_ZERO_MESSAGE = "NAV_TARGET_ZERO" ∧
    executeFailReason NAV_ZERO_MESSAGE = "PROVIDER_ERROR" := by
  refine ⟨?_, by decide, by decide⟩
  unfold fetchProjectMetrics
  rw [if_pos h]

/-- C2 amended witness: concrete evaluation at the zero-target reads. -/
theorem navZero_hard_failure_witness :
    readsZeroTarget.targetPoolPrice = 0 ∧
    (fetchProjectMetrics projInfoW readsZeroTarget = Except.error NAV_ZERO_MESSAGE ∧
     precheckFailReason NAV_ZERO_MESSAGE = "NAV_TARGET_ZERO" ∧
     executeFailReason NAV_ZERO_MESSAGE = "PROVIDER_ERROR") :=
  ⟨rfl, navZero_hard_failure projInfoW readsZeroTarget rfl⟩

/-- A `ProjectCreated` event as returned by `queryFilter`. -/
structure CreationEvent where
  blockNumber : Nat
  project : Addr
deriving DecidableEq, Repr

/-- The normalised (lower-cased) project address of an event, as used for
the `seenProjects` de-duplication set. -/
def eventKey (e : CreationEvent) : Addr := toLowerL e.project

/-- Embedding of `registry.queryFilter(filter, fromBlock, toBlock)`: the
creation events of the chain's log whose block number lies in the window. -/
def queryFilter (chain : List CreationEvent) (fromBlock toBlock : Nat) :
    List CreationEvent :=
  chain.filter (fun e =>
    decide (fromBlock ≤ e.blockNumber) && decide (e.blockNumber ≤ toBlock))

/-- The per-window event loop: events of already-seen projects are
skipped, fresh ones are added to the seen set and appended to the
accumulated event list. -/
def processBatch : List CreationEvent → List Addr → List CreationEvent →
    List Addr × List CreationEvent
  | [], seen, acc => (seen, acc)
  | e :: rest, seen, acc =>
    if eventKey e ∈ seen then processBatch rest seen acc
    else processBatch rest (eventKey e :: seen) (acc ++ [e])

/-- The backward window scan of `fetchProjectCreationEvents`.  The source
loops `while (currentEndBlock >= 0 && seenProjects.size < totalProjects)`
with `currentStartBlock = max(0, currentEndBlock - MAX_EVENT_BLOCK_SPAN + 1)`
(which on `Nat` is `currentEnd + 1 - MAX_EVENT_BLOCK_SPAN`) and continues
at `currentEndBlock = currentStartBlock - 1`; the embedding keeps the
block counter non-negative and stops once a window reached block 0, which
is exactly when the source's next `currentEndBlock >= 0` test fails.  The
last component counts the `queryFilter` calls issued. -/
def scanWindows (chain : List CreationEvent) (totalProjects : Nat)
    (currentEnd : Nat) (seen : List Addr) (acc : List CreationEvent)
    (queries : Nat) : List Addr × List CreationEvent × Nat :=
  if seen.length < totalProjects then
    if currentEnd + 1 - MAX_EVENT_BLOCK_SPAN = 0 then
      ((processBatch (queryFilter chain (currentEnd + 1 - MAX_EVENT_BLOCK_SPAN)
          currentEnd) seen acc).1,
       (processBatch (queryFilter chain (currentEnd + 1 - MAX_EVENT_BLOCK_SPAN)
          currentEnd) seen acc).2,
       queries + 1)
    else
      scanWindows chain totalProjects (currentEnd + 1 - MAX_EVENT_BLOCK_SPAN - 1)
        (processBatch (queryFilter chain (currentEnd + 1 - MAX_EVENT_BLOCK_SPAN)
          currentEnd) seen acc).1
        (processBatch (queryFilter chain (currentEnd + 1 - MAX_EVENT_BLOCK_SPAN)
          currentEnd) seen acc).2
        (queries + 1)
  else (seen, acc, queries)
termination_by currentEnd
decreasing_by
  simp_wf
  have h10 : MAX_EVENT_BLOCK_SPAN = 10 := rfl
  omega

/-- The comparison `(a, b) => a.blockNumber - b.blockNumber` used to sort
the collected events ascending. -/
def byBlock (a b : CreationEvent) : Prop := a.blockNumber ≤ b.blockNumber

instance : DecidableRel byBlock := fun _ _ => Nat.decLe _ _

instance : IsTotal CreationEvent byBlock := ⟨fun _ _ => Nat.le_total _ _⟩

instance : IsTrans CreationEvent byBlock := ⟨fun _ _ _ => Nat.le_trans⟩

/-- Embedding of `fetchProjectCreationEvents`: the chain's event log, the
latest block height and the registry's authoritative project count are the
values the initial reads return.  Returns the collected events (sorted by
ascending block number) together with the number of window queries
issued. -/
def fetchProjectCreationEvents (chain : List CreationEvent)
    (latestBlock totalProjects : Nat) : List CreationEvent × Nat :=
  if totalProjects = 0 then ([], 0)
  else
    (List.insertionSort byBlock
        (scanWindows chain totalProjects latestBlock [] [] 0).2.1,
      (scanWindows chain totalProjects latestBlock [] [] 0).2.2)

/-- When every project of the batch is fresh (no duplicate inside the
batch, none already seen), the window loop records the whole batch in
order. -/
theorem processBatch_fresh :
    ∀ (batch : List CreationEvent) (seen : List Addr) (acc : List CreationEvent),
      ((batch.map eventKey) ++ seen).Nodup →
      processBatch batch seen acc = ((batch.map eventKey).reverse ++ seen, acc ++ batch) := by
  intro batch
  induction batch with
  | nil =>
    intro seen acc _
    simp [processBatch]
  | cons e rest ih =>
    intro seen acc h
    rw [List.map_cons, List.cons_append, List.nodup_cons] at h
    have hnotin : eventKey e ∉ seen := fun hmem => h.1 (List.mem_append_right _ hmem)
    rw [processBatch, if_neg hnotin]
    have h' : ((rest.map eventKey) ++ (eventKey e :: seen)).Nodup := by
      refine List.Perm.nodup ?_ (List.nodup_cons.mpr h)
      exact List.perm_middle.symm
    rw [ih (eventKey e :: seen) (acc ++ [e]) h']
    simp

/-- A filter by the disjunction of two pointwise-disjoint predicates is a
permutation of the two separate filters appended. -/
theorem filter_disjoint_perm {α : Type} :
    ∀ (l : List α) (p q : α → Bool),
      (∀ a ∈ l, ¬(p a = true ∧ q a = true)) →
      (l.filter p ++ l.filter q).Perm (l.filter (fun a => p a || q a)) := by
  intro l
  induction l with
  | nil => intro p q _; simp
  | cons a t ih =>
    intro p q h
    have ht := ih p q (fun x hx => h x (List.mem_cons_of_mem a hx))
    cases hp : p a with
    | true =>
      have hq : q a = false := by
        cases hqt : q a with
        | true => exact absurd ⟨hp, hqt⟩ (h a (List.mem_cons_self a t))
        | false => rfl
      simp only [List.filter_cons, hp, hq, Bool.true_or, if_true]
      simpa using ht.cons a
    | false =>
      cases hq : q a with
      | true =>
        simp only [List.filter_cons, hp, hq, Bool.false_or]
        refine List.Perm.trans List.perm_middle ?_
        simpa using ht.cons a
      | false =>
        simp only [List.filter_cons, hp, hq, Bool.false_or]
        exact ht

/-- Main invariant of the backward window scan: when the seen set and the
accumulator hold exactly the events above the current window, the scan
ends holding every event of the chain — either block 0 is reached (all
windows scanned) or the seen count reached the authoritative total, which
under one creation event per project means everything was found. -/
theorem scanWindows_collects (chain : List CreationEvent) (N : Nat)
    (hkeys : (chain.map eventKey).Nodup) (hlen : chain.length = N) :
    ∀ (currentEnd : Nat) (seen : List Addr) (acc : List CreationEvent) (queries : Nat),
      seen.Perm ((chain.filter
        (fun e => decide (currentEnd < e.blockNumber))).map eventKey) →
      acc.Perm (chain.filter (fun e => decide (currentEnd < e.blockNumber))) →
      (scanWindows chain N currentEnd seen acc queries).2.1.Perm chain := by
  intro currentEnd
  induction currentEnd using Nat.strong_induction_on with
  | _ currentEnd ih =>
    intro seen acc queries hseen hacc
    rw [scanWindows]
    by_cases hsz : seen.length < N
    case neg =>
      rw [if_neg hsz]
      have hlen1 := hseen.length_eq
      rw [List.length_map] at hlen1
      have hle := List.length_filter_le
        (fun e => decide (currentEnd < e.blockNumber)) chain
      have heq : chain.filter (fun e => decide (currentEnd < e.blockNumber)) = chain := by
        refine (List.filter_sublist chain).eq_of_length ?_
        omega
      rw [heq] at hacc
      exact hacc
    case pos =>
      rw [if_pos hsz]
      have h10 : MAX_EVENT_BLOCK_SPAN = 10 := rfl
      have hdisj : ∀ e ∈ chain,
          ¬((decide (currentEnd + 1 - MAX_EVENT_BLOCK_SPAN ≤ e.blockNumber) &&
              decide (e.blockNumber ≤ currentEnd)) = true ∧
            decide (currentEnd < e.blockNumber) = true) := by
        intro e _
        simp only [Bool.and_eq_true, decide_eq_true_eq]
        omega
      have hperm2 := filter_disjoint_perm chain
        (fun e => decide (currentEnd + 1 - MAX_EVENT_BLOCK_SPAN ≤ e.blockNumber) &&
          decide (e.blockNumber ≤ currentEnd))
        (fun e => decide (currentEnd < e.blockNumber)) hdisj
      have hcongr : chain.filter (fun e =>
          (decide (currentEnd + 1 - MAX_EVENT_BLOCK_SPAN ≤ e.blockNumber) &&
            decide (e.blockNumber ≤ currentEnd)) ||
          decide (currentEnd < e.blockNumber)) =
          chain.filter (fun e =>
            decide (currentEnd + 1 - MAX_EVENT_BLOCK_SPAN ≤ e.blockNumber)) := by
        refine List.filter_congr ?_
        intro e _
        rcases le_or_lt e.blockNumber currentEnd with h2 | h2
        · have h3 : ¬(currentEnd < e.blockNumber) := by omega
          by_cases h1 : currentEnd + 1 - MAX_EVENT_BLOCK_SPAN ≤ e.blockNumber
          · simp [h1, h2, h3]
          · simp [h1, h2, h3]
        · have h1 : currentEnd + 1 - MAX_EVENT_BLOCK_SPAN ≤ e.blockNumber := by omega
          have h3 : ¬(e.blockNumber ≤ currentEnd) := by omega
          simp [h1, h2, h3]
      have hnd0 : ((chain.filter (fun e =>
          (decide (currentEnd + 1 - MAX_EVENT_BLOCK_SPAN ≤ e.blockNumber) &&
            decide (e.blockNumber ≤ currentEnd)) ||
          decide (currentEnd < e.blockNumber))).map eventKey).Nodup :=
        List.Nodup.sublist ((List.filter_sublist chain).map eventKey) hkeys
      have hp1 : ((queryFilter chain (currentEnd + 1 - MAX_EVENT_BLOCK_SPAN)
            currentEnd).map eventKey ++ seen).Perm
          ((chain.filter (fun e =>
            (decide (currentEnd + 1 - MAX_EVENT_BLOCK_SPAN ≤ e.blockNumber) &&
              decide (e.blockNumber ≤ currentEnd)) ||
            decide (currentEnd < e.blockNumber))).map eventKey) := by
        refine List.Perm.trans (List.Perm.append_left _ hseen) ?_
        rw [← List.map_append]
        exact hperm2.map eventKey
      have hnd : ((queryFilter chain (currentEnd + 1 - MAX_EVENT_BLOCK_SPAN)
            currentEnd).map eventKey ++ seen).Nodup := hp1.symm.nodup hnd0
      have hpb := processBatch_fresh _ seen acc hnd
      have hacc' : (acc ++ queryFilter chain (currentEnd + 1 - MAX_EVENT_BLOCK_SPAN)
            currentEnd).Perm
          (chain.filter (fun e =>
            decide (currentEnd + 1 - MAX_EVENT_BLOCK_SPAN ≤ e.blockNumber))) := by
        rw [← hcongr]
        refine List.Perm.trans ?_ hperm2
        refine List.Perm.trans (hacc.append_right _) List.perm_append_comm
      have hcongr2 : chain.filter (fun e =>
          decide (currentEnd + 1 - MAX_EVENT_BLOCK_SPAN - 1 < e.blockNumber)) =
          chain.filter (fun e =>
            decide (currentEnd + 1 - MAX_EVENT_BLOCK_SPAN ≤ e.blockNumber)) ∨
          currentEnd + 1 - MAX_EVENT_BLOCK_SPAN = 0 := by
        by_cases hs0 : currentEnd + 1 - MAX_EVENT_BLOCK_SPAN = 0
        · exact Or.inr hs0
        · refine Or.inl (List.filter_congr ?_)
          intro e _
          have heqv : (currentEnd + 1 - MAX_EVENT_BLOCK_SPAN - 1 < e.blockNumber) ↔
              (currentEnd + 1 - MAX_EVENT_BLOCK_SPAN ≤ e.blockNumber) := by omega
          simp [heqv]
      by_cases hs0 : currentEnd + 1 - MAX_EVENT_BLOCK_SPAN = 0
      · rw [if_pos hs0, hpb]
        have hall : chain.filter (fun e => decide (0 ≤ e.blockNumber)) = chain := by
          refine List.filter_eq_self.mpr ?_
          intro e _
          simp
        refine List.Perm.trans hacc' ?_
        rw [hs0, hall]
      · rw [if_neg hs0, hpb]
        rcases hcongr2 with hcongr2 | hbad
        · refine ih (currentEnd + 1 - MAX_EVENT_BLOCK_SPAN - 1) (by omega) _ _ _ ?_ ?_
          · rw [hcongr2]
            have hp1' := hp1
            rw [hcongr] at hp1'
            refine List.Perm.trans ?_ hp1'
            exact (List.reverse_perm _).append_right seen
          · rw [hcongr2]
            exact hacc'
        · exact absurd hbad hs0

/-- C6: over a chain holding N creation events with pairwise-distinct
normalised project addresses, all at or below the latest block, and an
authoritative count of N, discovery returns a permutation of exactly
those N events (so N de-duplicated projects) sorted by ascending block
number — regardless of where the 10-block window boundaries fall relative
to the events — and a zero count returns an empty list with zero window
queries issued. -/
theorem fetchProjectCreationEvents_spec (chain : List CreationEvent)
    (latestBlock N : Nat)
    (hkeys : (chain.map eventKey).Nodup)
    (hlen : chain.length = N)
    (hblocks : ∀ e ∈ chain, e.blockNumber ≤ latestBlock) :
    (fetchProjectCreationEvents chain latestBlock N).1.Perm chain ∧
    List.Sorted byBlock (fetchProjectCreationEvents chain latestBlock N).1 ∧
    (N = 0 → fetchProjectCreationEvents chain latestBlock N = ([], 0)) := by
  by_cases hN : N = 0
  · subst hN
    have hchain : chain = [] := List.length_eq_zero.mp hlen
    subst hchain
    exact ⟨by simp [fetchProjectCreationEvents], by simp [fetchProjectCreationEvents],
      fun _ => rfl⟩
  · have hemp : chain.filter (fun e => decide (latestBlock < e.blockNumber)) = [] := by
      refine List.filter_eq_nil_iff.mpr ?_
      intro e he
      simpa using Nat.not_lt.mpr (hblocks e he)
    have hscan : (scanWindows chain N latestBlock [] [] 0).2.1.Perm chain := by
      refine scanWindows_collects chain N hkeys hlen latestBlock [] [] 0 ?_ ?_
      · rw [hemp]
        simp
      · rw [hemp]
    refine ⟨?_, ?_, fun h0 => absurd h0 hN⟩
    · unfold fetchProjectCreationEvents
      rw [if_neg hN]
      exact (List.perm_insertionSort byBlock _).trans hscan
    · unfold fetchProjectCreationEvents
      rw [if_neg hN]
      exact List.sorted_insertionSort byBlock _

/-- A chain of three creation events for three projects, spread over the
windows [21,30], [11,20], [1,10] of a scan from block 30. -/
def chainW : List CreationEvent :=
  [{ blockNumber := 3, project := ['a'] }, { blockNumber := 15, project := ['b'] },
   { blockNumber := 27, project := ['c'] }]

/-- C6 witness: discovery over the concrete three-event chain. -/
theorem fetchProjectCreationEvents_spec_witness :
    ((chainW.map eventKey).Nodup ∧ chainW.length = 3 ∧
      ∀ e ∈ chainW, e.blockNumber ≤ 30) ∧
    ((fetchProjectCreationEvents chainW 30 3).1.Perm chainW ∧
     List.Sorted byBlock (fetchProjectCreationEvents chainW 30 3).1 ∧
     ((3 : Nat) = 0 → fetchProjectCreationEvents chainW 30 3 = ([], 0))) :=
  ⟨⟨by decide, by decide, by decide⟩,
    fetchProjectCreationEvents_spec chainW 30 3 (by decide) (by decide) (by decide)⟩

end LPRebalancer
